import Mathlib

/-!
Verification of the LIME grid-based Monte Carlo radiative transfer and
statistical-equilibrium convergence engine, against `src/src/lime.h`.

Only the header `lime.h` of the engine is available: the numeric constants
(`minpop`, `eps`, `TOL`, `MAXITER`, `goal`, `max_phot`, `ininphot`,
`MAX_NSPECIES`, `DIM`, `NTHREADS`, the OpenMP shims) and the data structures
(`struct grid`, `struct populations`, `point`, `inputPars`) are translated
directly from that header.  The bodies of the engine functions declared there
(`stateq`, `levelPops`, `photon`, `statistics`, `calcSourceFn`, `parseInput`)
are not part of the sources, so each is modelled from the specification's
description of its behaviour; every such definition carries a doc comment
starting with `Modelled from the spec:` naming the missing function.
All real arithmetic is embedded exactly over `ℚ`.
-/

namespace Lime

/-! ## Constants, from src/src/lime.h lines 42-84 -/

/-- Header constant `DIM` (lime.h line 42): the spatial dimension, 3. -/
def DIM : ℕ := 3

/-- Header constant `DEFAULT_NTHREADS` (lime.h line 44). -/
def DEFAULT_NTHREADS : ℕ := 1

/-- Header constant `NTHREADS` (lime.h lines 45-47): when no value is passed
from the build, it is defined to `DEFAULT_NTHREADS`. -/
def NTHREADS : ℕ := DEFAULT_NTHREADS

/-- OpenMP shim (lime.h line 36): without OpenMP, `omp_get_num_threads()`
is the constant 0. -/
def omp_get_num_threads : ℕ := 0

/-- OpenMP shim (lime.h line 37): without OpenMP, `omp_get_thread_num()`
is the constant 0. -/
def omp_get_thread_num : ℕ := 0

/-- Header constant `max_phot` (lime.h line 71): hard cap on rays per point. -/
def max_phot : ℕ := 10000

/-- Header constant `ininphot` (lime.h line 72): initial rays per point. -/
def ininphot : ℕ := 9

/-- Header constant `minpop` (lime.h line 73), value 1.e-6. -/
def minpop : ℚ := 1 / 1000000

/-- Header constant `eps` (lime.h line 74), value 1.0e-30. -/
def eps : ℚ := 1 / 10 ^ 30

/-- Header constant `TOL` (lime.h line 75), value 1e-6. -/
def TOL : ℚ := 1 / 1000000

/-- Header constant `MAXITER` (lime.h line 76), value 50. -/
def MAXITER : ℕ := 50

/-- Header constant `goal` (lime.h line 77), value 50: the percentage of
converged points required. -/
def goal : ℚ := 50

/-- Header constant `MAX_NSPECIES` (lime.h line 80), value 100. -/
def MAX_NSPECIES : ℤ := 100

/-! ## Rate-matrix solver (stateq)

`stateq` is declared at lime.h line 246; its body is not among the sources,
so it is modelled from the spec (§4.3, §7): the dense linear system has one
row replaced by the normalization constraint (so the exact solution sums
to 1); the solve fails if the matrix is singular or a population is
negative beyond tolerance; populations are clamped in place to a small
positive numeric floor (never exactly zero). -/

/-- Errors signalled by the per-point solve (spec §7 taxonomy). -/
inductive SolveError where
  | PopulationSolveFailed : SolveError

/-- Modelled from the spec: the in-place clamping of trace populations to the
positive numeric floor (`stateq` body is missing from the sources).  Each
level occupation is raised to at least the header floor `eps`, so no value is
ever exactly zero. -/
def stateqClamp (raw : List ℚ) : List ℚ :=
  raw.map fun p => max p eps

/-- Modelled from the spec: `stateq` (declared lime.h line 246, body missing).
Input is the singularity flag of the LU decomposition together with the raw
solution `raw` of the normalized rate-matrix system.  The solve fails when
the matrix is singular or some population is negative beyond the fixed
tolerance `TOL`; on success the populations are clamped to the floor. -/
def stateq (singular : Bool) (raw : List ℚ) : Option (List ℚ) :=
  if singular then none
  else if raw.any (fun p => decide (p < -TOL)) then none
  else some (stateqClamp raw)

lemma stateq_eq_some {singular : Bool} {raw out : List ℚ}
    (h : stateq singular raw = some out) :
    singular = false ∧ (∀ p ∈ raw, -TOL ≤ p) ∧ out = stateqClamp raw := by
  unfold stateq at h
  rcases singular with _ | _
  · simp only [Bool.false_eq_true, if_false] at h
    rcases hany : raw.any (fun p => decide (p < -TOL)) with _ | _
    · rw [hany] at h
      simp only [Bool.false_eq_true, if_false, Option.some.injEq] at h
      refine ⟨rfl, ?_, h.symm⟩
      intro p hp
      by_contra hlt
      have : raw.any (fun p => decide (p < -TOL)) = true := by
        refine List.any_eq_true.mpr ⟨p, hp, ?_⟩
        simp only [decide_eq_true_eq]
        exact lt_of_not_le hlt
      rw [this] at hany
      exact Bool.true_eq_false.mp hany
    · rw [hany] at h
      simp at h
  · simp at h

lemma stateqClamp_mem_le {raw : List ℚ} (p : ℚ) (hp : p ∈ stateqClamp raw) :
    eps ≤ p := by
  rcases List.mem_map.mp hp with ⟨q, _, hq⟩
  rw [← hq]
  exact le_max_right q eps

lemma stateqClamp_sum_ge (raw : List ℚ) : raw.sum ≤ (stateqClamp raw).sum := by
  induction raw with
  | nil => simp [stateqClamp]
  | cons p t ih =>
      simp only [stateqClamp, List.map_cons, List.sum_cons] at *
      exact add_le_add (le_max_left p eps) ih

lemma stateqClamp_sum_le (raw : List ℚ) (hneg : ∀ p ∈ raw, -TOL ≤ p) :
    (stateqClamp raw).sum ≤ raw.sum + raw.length * (TOL + eps) := by
  induction raw with
  | nil => simp [stateqClamp]
  | cons p t ih =>
      have hp : -TOL ≤ p := hneg p (List.mem_cons_self p t)
      have ht : ∀ q ∈ t, -TOL ≤ q := fun q hq => hneg q (List.mem_cons_of_mem p hq)
      simp only [stateqClamp, List.map_cons, List.sum_cons, List.length_cons] at *
      have hhead : max p eps ≤ p + (TOL + eps) := by
        rcases le_total p eps with hle | hle
        · rw [max_eq_right hle]
          have : -TOL ≤ p := hp
          nlinarith [this]
        · rw [max_eq_left hle]
          have hT : (0 : ℚ) ≤ TOL := by norm_num [TOL]
          have hE : (0 : ℚ) ≤ eps := by norm_num [eps]
          linarith
      have := ih ht
      push_cast
      push_cast at this
      nlinarith [this, hhead]

/-- Claim C1 (as stated) is refuted by two concrete successful solves.
First, on the exact normalized solution `[1 - 10⁻⁸, 10⁻⁸]` the solve succeeds
and returns a fraction 10⁻⁸ that is strictly below the claimed floor
`minpop = 10⁻⁶` (the floor actually applied is `eps = 10⁻³⁰`).  Second, on
the exact normalized solution `[1 + 10⁻⁷, -10⁻⁷]` (negative only within the
tolerance `TOL`, hence clamped rather than rejected) the solve succeeds and
the returned fractions sum to more than 1 + 10⁻⁹, violating the claimed
1e-9 bound on the sum. -/
theorem stateq_claimC1_counterexample :
    (([1 - 1 / 10 ^ 8, 1 / 10 ^ 8] : List ℚ).sum = 1 ∧
      stateq false [1 - 1 / 10 ^ 8, 1 / 10 ^ 8] =
        some [1 - 1 / 10 ^ 8, 1 / 10 ^ 8] ∧
      (1 / 10 ^ 8 : ℚ) < minpop) ∧
    (([1 + 1 / 10 ^ 7, -(1 / 10 ^ 7)] : List ℚ).sum = 1 ∧
      stateq false [1 + 1 / 10 ^ 7, -(1 / 10 ^ 7)] =
        some [1 + 1 / 10 ^ 7, eps] ∧
      1 / 10 ^ 9 < |([1 + 1 / 10 ^ 7, eps] : List ℚ).sum - 1|) := by
  constructor
  · refine ⟨by norm_num, ?_, by norm_num [minpop]⟩
    unfold stateq stateqClamp
    norm_num [TOL, eps]
  · refine ⟨by norm_num, ?_, ?_⟩
    · unfold stateq stateqClamp
      norm_num [TOL, eps]
    · rw [abs_of_pos] <;> norm_num [eps]

/-- Claim C1 (amended): whenever the modelled `stateq` succeeds on the raw
solution of the normalized system (which sums to exactly 1), every returned
occupation fraction is at least the positive floor `eps = 10⁻³⁰` — in
particular none is zero or negative — and the fractions sum to at least 1
and to at most `1 + nlev·(TOL + eps)`, the slack introduced by clamping
negative-within-tolerance trace populations up to the floor. -/
theorem stateq_success_floor_sum (singular : Bool) (raw out : List ℚ)
    (hsum : raw.sum = 1) (h : stateq singular raw = some out) :
    (∀ p ∈ out, eps ≤ p) ∧ 1 ≤ out.sum ∧
      out.sum ≤ 1 + raw.length * (TOL + eps) := by
  rcases stateq_eq_some h with ⟨-, hneg, hout⟩
  subst hout
  refine ⟨fun p hp => stateqClamp_mem_le p hp, ?_, ?_⟩
  · rw [← hsum]
    exact stateqClamp_sum_ge raw
  · rw [← hsum]
    exact stateqClamp_sum_le raw hneg

/-- Concrete instantiation of the amended C1 theorem: the solve on the exact
solution `[1/2, 1/2]` succeeds with all hypotheses discharged. -/
theorem stateq_success_floor_sum_witness :
    (∀ p ∈ ([1 / 2, 1 / 2] : List ℚ), eps ≤ p) ∧
      1 ≤ ([1 / 2, 1 / 2] : List ℚ).sum ∧
      ([1 / 2, 1 / 2] : List ℚ).sum ≤
        1 + ([1 / 2, 1 / 2] : List ℚ).length * (TOL + eps) := by
  have h : stateq false [1 / 2, 1 / 2] = some [1 / 2, 1 / 2] := by
    unfold stateq stateqClamp
    norm_num [TOL, eps]
  exact stateq_success_floor_sum false [1 / 2, 1 / 2] [1 / 2, 1 / 2]
    (by norm_num) h

/-! ## Error atomicity of the per-point solve (claim C3)

The per-point state carried between iterations is `struct populations`
(lime.h lines 128-132) together with the grid point's convergence flag
`conv` (lime.h line 146). -/

/-- The per-point population state: the occupation fractions `pops` of
`struct populations` (lime.h line 129) and the point's convergence flag
`conv` (lime.h line 146). -/
structure PointPops where
  pops : List ℚ
  conv : Bool

/-- Modelled from the spec: the handling of one grid point's solve inside an
iterating pass (the bodies of `levelPops` and `stateq` are missing from the
sources).  On failure the point's prior populations are retained, the point
is marked unconverged, and `PopulationSolveFailed` is signalled; on success
the candidate populations are committed. -/
def stateqStep (singular : Bool) (raw : List ℚ) (pt : PointPops) :
    PointPops × Option SolveError :=
  match stateq singular raw with
  | none => ({ pt with conv := false }, some SolveError.PopulationSolveFailed)
  | some newp => ({ pt with pops := newp }, none)

/-- Modelled from the spec: one pass of per-point solves over the whole grid
(the run continues past local solve failures rather than aborting, so the
pass is a total function of the grid). `inputs` carries, per point, the
singularity flag and raw solution of that point's rate-matrix system. -/
def passSolve (inputs : List (Bool × List ℚ)) (g : List PointPops) :
    List PointPops :=
  List.zipWith (fun inp pt => (stateqStep inp.1 inp.2 pt).1) inputs g

/-- Default point used for out-of-range indexing. -/
def dfltPt : PointPops := ⟨[], false⟩

/-- Claim C3: if the solve at grid point `i` is singular or yields a
population negative beyond tolerance, then `PopulationSolveFailed` is
signalled at that point, the pass still processes the whole grid (it returns
a grid of the same length rather than aborting), the point's populations
after the pass are exactly its prior populations, and the point is marked
unconverged. -/
theorem stateq_failure_atomic (inputs : List (Bool × List ℚ))
    (g : List PointPops) (i : ℕ) (hi : i < g.length)
    (hlen : inputs.length = g.length)
    (hfail : stateq (inputs.getD i (false, [])).1 (inputs.getD i (false, [])).2
      = none) :
    (stateqStep (inputs.getD i (false, [])).1 (inputs.getD i (false, [])).2
        (g.getD i dfltPt)).2 = some SolveError.PopulationSolveFailed ∧
    (passSolve inputs g).length = g.length ∧
    ((passSolve inputs g).getD i dfltPt).pops = (g.getD i dfltPt).pops ∧
    ((passSolve inputs g).getD i dfltPt).conv = false := by
  have hleni : i < inputs.length := by rw [hlen]; exact hi
  have hlenp : (passSolve inputs g).length = g.length := by
    simp [passSolve, hlen]
  have hip : i < (passSolve inputs g).length := by rw [hlenp]; exact hi
  have hstep :
      (stateqStep (inputs.getD i (false, [])).1 (inputs.getD i (false, [])).2
        (g.getD i dfltPt))
      = ({ (g.getD i dfltPt) with conv := false },
          some SolveError.PopulationSolveFailed) := by
    unfold stateqStep
    rw [hfail]
  have hget : (passSolve inputs g).getD i dfltPt =
      { (g.getD i dfltPt) with conv := false } := by
    have h1 : (passSolve inputs g).getD i dfltPt = (passSolve inputs g)[i] :=
      List.getD_eq_getElem _ _ hip
    have h2 : (passSolve inputs g)[i] =
        (stateqStep inputs[i].1 inputs[i].2 g[i]).1 := by
      simp [passSolve]
    rw [h1, h2, ← List.getD_eq_getElem inputs (false, ([] : List ℚ)) hleni,
      ← List.getD_eq_getElem g dfltPt hi, hstep]
  refine ⟨by rw [hstep], hlenp, ?_, ?_⟩
  · rw [hget]
  · rw [hget]

/-- Concrete instantiation of the C3 theorem: a singular solve at point 0 of
a one-point grid retains the prior populations `[1/2, 1/2]` and marks the
point unconverged. -/
theorem stateq_failure_atomic_witness :
    (stateqStep ((([(true, [1])] : List (Bool × List ℚ)).getD 0 (false, [])).1)
        ((([(true, [1])] : List (Bool × List ℚ)).getD 0 (false, [])).2)
        (([⟨[1 / 2, 1 / 2], true⟩] : List PointPops).getD 0 dfltPt)).2
      = some SolveError.PopulationSolveFailed ∧
    (passSolve [(true, [1])] [⟨[1 / 2, 1 / 2], true⟩]).length
      = ([⟨[1 / 2, 1 / 2], true⟩] : List PointPops).length ∧
    ((passSolve [(true, [1])] [⟨[1 / 2, 1 / 2], true⟩]).getD 0 dfltPt).pops
      = (([⟨[1 / 2, 1 / 2], true⟩] : List PointPops).getD 0 dfltPt).pops ∧
    ((passSolve [(true, [1])] [⟨[1 / 2, 1 / 2], true⟩]).getD 0 dfltPt).conv
      = false :=
  stateq_failure_atomic [(true, [1])] [⟨[1 / 2, 1 / 2], true⟩] 0
    (by norm_num) rfl rfl

/-! ## Convergence statistics (claim C5)

`statistics` is declared at lime.h line 247; its body is missing from the
sources, so it is modelled from the spec (§4.4 step 3): compute the
fractional change between old and new populations; mark the point converged
exactly when the change is below the fixed tolerance `TOL`. -/

/-- Modelled from the spec: the fractional change between the previous
iteration's populations and the candidate new populations — the largest
relative per-level change (`statistics` body is missing from the sources). -/
def fracChange (old new : List ℚ) : ℚ :=
  (List.zipWith (fun o n => |n - o| / o) old new).foldr max 0

/-- Modelled from the spec: the convergence marking of `statistics`
(declared lime.h line 247, body missing): the point's `conv` flag is set
exactly when the fractional change is strictly below `TOL`. -/
def statisticsConv (old new : List ℚ) : Bool :=
  decide (fracChange old new < TOL)

lemma foldr_max_lt_iff (l : List ℚ) (c : ℚ) (hc : 0 < c) :
    l.foldr max 0 < c ↔ ∀ x ∈ l, x < c := by
  induction l with
  | nil => simpa using hc
  | cons a t ih =>
      simp only [List.foldr_cons, max_lt_iff, List.mem_cons, ih]
      constructor
      · rintro ⟨ha, ht⟩ x (rfl | hx)
        · exact ha
        · exact ht x hx
      · intro h
        exact ⟨h a (Or.inl rfl), fun x hx => h x (Or.inr hx)⟩

/-- Claim C5: for populations with (strictly positive) previous values, the
modelled `statistics` marks the point converged if and only if, level by
level, the absolute population change is strictly below `TOL` times the
previous value — i.e. exactly when the fractional change is strictly below
the fixed tolerance `TOL = 10⁻⁶`. -/
theorem statisticsConv_iff (old new : List ℚ)
    (hpos : ∀ o ∈ old, 0 < o) :
    statisticsConv old new = true ↔
      ∀ p ∈ List.zip old new, |p.2 - p.1| < TOL * p.1 := by
  have hT : (0 : ℚ) < TOL := by norm_num [TOL]
  unfold statisticsConv fracChange
  rw [decide_eq_true_eq, foldr_max_lt_iff _ _ hT]
  induction old generalizing new with
  | nil => simp
  | cons o os ih =>
      cases new with
      | nil => simp
      | cons n ns =>
          have ho : 0 < o := hpos o (List.mem_cons_self o os)
          have hos : ∀ x ∈ os, 0 < x :=
            fun x hx => hpos x (List.mem_cons_of_mem o hx)
          simp only [List.zipWith_cons_cons, List.zip_cons_cons,
            List.mem_cons, forall_eq_or_imp]
          rw [div_lt_iff₀ ho]
          constructor
          · rintro ⟨hh, ht⟩
            exact ⟨by simpa [mul_comm] using hh, (ih ns hos).mp ht⟩
          · rintro ⟨hh, ht⟩
            exact ⟨by simpa [mul_comm] using hh, (ih ns hos).mpr ht⟩

/-- Concrete instantiation of the C5 theorem at `old = new = [1/2, 1/2]`:
the point is marked converged, and indeed every per-level change is below
`TOL` times the previous value. -/
theorem statisticsConv_iff_witness :
    statisticsConv [1 / 2, 1 / 2] [1 / 2, 1 / 2] = true ↔
      ∀ p ∈ List.zip ([1 / 2, 1 / 2] : List ℚ) ([1 / 2, 1 / 2] : List ℚ),
        |p.2 - p.1| < TOL * p.1 :=
  statisticsConv_iff [1 / 2, 1 / 2] [1 / 2, 1 / 2] (by norm_num)

/-! ## Convergence controller (claims C2 and C4)

`levelPops` is declared at lime.h line 222; its body is missing from the
sources, so the outer loop is modelled from the spec (§4.4): a state machine
Initializing → Iterating → Converged | MaxIterExceeded.  Each pass marks
every point converged or not (the per-point outcome is supplied by an oracle
standing for the Monte Carlo transport + solve, which is not modelled here),
escalates the ray count `nphot` of still-unconverged points up to the hard
cap `max_phot`, and the controller declares `Converged` once the percentage
of converged points exceeds `goal` for two consecutive passes, or
`MaxIterExceeded` after `MAXITER` passes. -/

/-- The states of the convergence controller (spec §4.4 state machine). -/
inductive ConvState where
  | Iterating : ConvState
  | Converged : ConvState
  | MaxIterExceeded : ConvState

/-- Per-point controller state: the ray count `nphot` (lime.h line 145) and
the convergence flag `conv` (lime.h line 146). -/
structure PtState where
  nphot : ℕ
  conv : Bool

/-- Modelled from the spec: the per-point ray-count escalation of
`levelPops` (body missing): the count is increased by `inc` but clamped to
the hard cap `max_phot`. -/
def escalate (inc n : ℕ) : ℕ := min (n + inc) max_phot

/-- Modelled from the spec: one Iterating pass of `levelPops` (body
missing).  `cs` gives, per point, whether this pass's transport + solve
left the point converged; unconverged points get their ray count
escalated. -/
def doPass (cs : List Bool) (inc : ℕ) (g : List PtState) : List PtState :=
  List.zipWith (fun c p => ⟨if c then p.nphot else escalate inc p.nphot, c⟩) cs g

/-- Percentage of grid points currently marked converged. -/
def percentConverged (g : List PtState) : ℚ :=
  100 * ((g.countP fun p => p.conv : ℕ) : ℚ) / g.length

/-- The initial grid of the controller: every point starts with the minimum
ray count `ininphot` and is unconverged. -/
def initGrid (n : ℕ) : List PtState := List.replicate n ⟨ininphot, false⟩

/-- The consecutive-good-passes counter update: incremented when the pass
leaves more than `goal` percent of the points converged, reset to 0
otherwise. -/
def nextConsec (cs : List Bool) (inc : ℕ) (consec : ℕ) (g : List PtState) : ℕ :=
  if goal < percentConverged (doPass cs inc g) then consec + 1 else 0

/-- Modelled from the spec: the iteration loop of `levelPops` (declared
lime.h line 222, body missing), with the remaining iteration budget as
fuel.  It declares `Converged` as soon as the converged fraction has
exceeded `goal` on two consecutive passes, and `MaxIterExceeded` when the
budget runs out. -/
def levelPopsLoop (oracle : ℕ → List Bool) (inc : ℕ) :
    ℕ → ℕ → ℕ → List PtState → ConvState × List PtState
  | 0, _, _, g => (ConvState.MaxIterExceeded, g)
  | fuel + 1, iter, consec, g =>
      if 2 ≤ nextConsec (oracle iter) inc consec g then
        (ConvState.Converged, doPass (oracle iter) inc g)
      else
        levelPopsLoop oracle inc fuel (iter + 1)
          (nextConsec (oracle iter) inc consec g) (doPass (oracle iter) inc g)

/-- Modelled from the spec: the convergence controller `levelPops` on a grid
of `n` points, run for at most `MAXITER` passes. -/
def levelPops (oracle : ℕ → List Bool) (inc n : ℕ) :
    ConvState × List PtState :=
  levelPopsLoop oracle inc MAXITER 0 0 (initGrid n)

/-- Pass `k` leaves strictly more than `goal` percent of the `n` points
converged. -/
def goodPass (oracle : ℕ → List Bool) (n k : ℕ) : Prop :=
  goal < 100 * (((oracle k).count true : ℕ) : ℚ) / n

lemma doPass_length (cs : List Bool) (inc : ℕ) (g : List PtState) :
    (doPass cs inc g).length = min cs.length g.length := by
  simp [doPass]

lemma countP_doPass (inc : ℕ) :
    ∀ (cs : List Bool) (g : List PtState), cs.length = g.length →
      ((doPass cs inc g).countP fun p => p.conv) = cs.count true := by
  intro cs
  induction cs with
  | nil => intro g _; simp [doPass]
  | cons c ct ih =>
      intro g hg
      cases g with
      | nil => simp at hg
      | cons p gt =>
          simp only [List.length_cons, Nat.succ.injEq] at hg
          simp only [doPass, List.zipWith_cons_cons, List.countP_cons,
            List.count_cons]
          have := ih gt hg
          simp only [doPass] at this
          rw [this]
          cases c <;> simp

lemma percent_doPass (cs : List Bool) (inc : ℕ) (g : List PtState)
    (h : cs.length = g.length) :
    percentConverged (doPass cs inc g)
      = 100 * ((cs.count true : ℕ) : ℚ) / g.length := by
  unfold percentConverged
  rw [countP_doPass inc cs g h, doPass_length, h, min_self]

lemma levelPopsLoop_ne_iterating (oracle : ℕ → List Bool) (inc : ℕ) :
    ∀ fuel iter consec (g : List PtState),
      (levelPopsLoop oracle inc fuel iter consec g).1 ≠ ConvState.Iterating := by
  intro fuel
  induction fuel with
  | zero => intro iter consec g; simp [levelPopsLoop]
  | succ f ih =>
      intro iter consec g
      simp only [levelPopsLoop]
      by_cases h2 : 2 ≤ nextConsec (oracle iter) inc consec g
      · rw [if_pos h2]; simp
      · rw [if_neg h2]; exact ih _ _ _

lemma levelPopsLoop_converged (oracle : ℕ → List Bool) (inc n : ℕ)
    (hlen : ∀ j, (oracle j).length = n) :
    ∀ fuel iter consec (g : List PtState), g.length = n →
      (consec ≠ 0 → 0 < iter ∧ goodPass oracle n (iter - 1)) →
      (levelPopsLoop oracle inc fuel iter consec g).1 = ConvState.Converged →
      ∃ k, k + 2 ≤ iter + fuel ∧ goodPass oracle n k ∧ goodPass oracle n (k + 1) := by
  intro fuel
  induction fuel with
  | zero =>
      intro iter consec g _ _ h
      simp [levelPopsLoop] at h
  | succ f ih =>
      intro iter consec g hg hinv h
      have hcs : (oracle iter).length = g.length := by rw [hlen iter, hg]
      have hpct : percentConverged (doPass (oracle iter) inc g)
          = 100 * (((oracle iter).count true : ℕ) : ℚ) / n := by
        rw [percent_doPass _ _ _ hcs, hg]
      have hgood : goal < percentConverged (doPass (oracle iter) inc g)
          ↔ goodPass oracle n iter := by
        rw [hpct]; exact Iff.rfl
      have hg2 : (doPass (oracle iter) inc g).length = n := by
        rw [doPass_length, hcs, hg, min_self]
      simp only [levelPopsLoop] at h
      by_cases hc : goal < percentConverged (doPass (oracle iter) inc g)
      · have hnc : nextConsec (oracle iter) inc consec g = consec + 1 := by
          unfold nextConsec; rw [if_pos hc]
        by_cases h2 : 2 ≤ consec + 1
        · have hcons : consec ≠ 0 := by omega
          rcases hinv hcons with ⟨hiter, hprev⟩
          obtain ⟨m, rfl⟩ : ∃ m, iter = m + 1 :=
            ⟨iter - 1, (Nat.succ_pred_eq_of_pos hiter).symm⟩
          refine ⟨m, by omega, ?_, ?_⟩
          · simpa using hprev
          · exact hgood.mp hc
        · rw [hnc, if_neg (by omega : ¬ 2 ≤ consec + 1)] at h
          rcases ih (iter + 1) (consec + 1) (doPass (oracle iter) inc g) hg2
              (fun _ => ⟨by omega, by simpa using hgood.mp hc⟩) h with
            ⟨k, hk, hk1, hk2⟩
          exact ⟨k, by omega, hk1, hk2⟩
      · have hnc : nextConsec (oracle iter) inc consec g = 0 := by
          unfold nextConsec; rw [if_neg hc]
        rw [hnc, if_neg (by omega : ¬ (2:ℕ) ≤ 0)] at h
        rcases ih (iter + 1) 0 (doPass (oracle iter) inc g) hg2
            (fun habs => absurd rfl habs) h with ⟨k, hk, hk1, hk2⟩
        exact ⟨k, by omega, hk1, hk2⟩

/-- Claim C2: the controller always ends in one of exactly the two terminal
states `Converged` or `MaxIterExceeded` (never in `Iterating`, i.e. it never
silently returns a non-converged grid as success), and it returns
`Converged` only if the percentage of converged points exceeded the goal
threshold `goal = 50` on two consecutive passes within the `MAXITER = 50`
iteration budget; in every other case the result is `MaxIterExceeded`. -/
theorem levelPops_terminal (oracle : ℕ → List Bool) (inc n : ℕ)
    (hlen : ∀ j, (oracle j).length = n) :
    ((levelPops oracle inc n).1 = ConvState.Converged ∨
      (levelPops oracle inc n).1 = ConvState.MaxIterExceeded) ∧
    ((levelPops oracle inc n).1 = ConvState.Converged →
      ∃ k, k + 2 ≤ MAXITER ∧ goodPass oracle n k ∧ goodPass oracle n (k + 1)) := by
  constructor
  · have hne := levelPopsLoop_ne_iterating oracle inc MAXITER 0 0 (initGrid n)
    rcases h : (levelPops oracle inc n).1 with _ | _ | _
    · exact absurd h hne
    · exact Or.inl rfl
    · exact Or.inr rfl
  · intro h
    have := levelPopsLoop_converged oracle inc n hlen MAXITER 0 0 (initGrid n)
      (by simp [initGrid]) (fun habs => absurd rfl habs) h
    simpa using this

/-- Concrete instantiation of the C2 theorem: with a single grid point whose
solve converges on every pass, the controller declares `Converged`, and the
two consecutive good passes exist. -/
theorem levelPops_terminal_witness :
    ((levelPops (fun _ => [true]) 1 1).1 = ConvState.Converged ∨
      (levelPops (fun _ => [true]) 1 1).1 = ConvState.MaxIterExceeded) ∧
    ((levelPops (fun _ => [true]) 1 1).1 = ConvState.Converged →
      ∃ k, k + 2 ≤ MAXITER ∧ goodPass (fun _ => [true]) 1 k ∧
        goodPass (fun _ => [true]) 1 (k + 1)) :=
  levelPops_terminal (fun _ => [true]) 1 1 (fun _ => rfl)

/-! ## Ray-count bounds (claim C4) -/

/-- The grid state after `k` Iterating passes of the controller, starting
from the initial grid (every point at the minimum ray count `ininphot`). -/
def gridAfter (oracle : ℕ → List Bool) (inc n : ℕ) : ℕ → List PtState
  | 0 => initGrid n
  | k + 1 => doPass (oracle k) inc (gridAfter oracle inc n k)

/-- The ray count of grid point `i` after `k` passes. -/
def nphotAt (oracle : ℕ → List Bool) (inc n k i : ℕ) : ℕ :=
  ((gridAfter oracle inc n k).getD i ⟨ininphot, false⟩).nphot

lemma gridAfter_length (oracle : ℕ → List Bool) (inc n : ℕ)
    (hlen : ∀ j, (oracle j).length = n) (k : ℕ) :
    (gridAfter oracle inc n k).length = n := by
  induction k with
  | zero => simp [gridAfter, initGrid]
  | succ k ih => simp [gridAfter, doPass_length, hlen, ih]

lemma nphotAt_succ (oracle : ℕ → List Bool) (inc n : ℕ)
    (hlen : ∀ j, (oracle j).length = n) (k i : ℕ) (hi : i < n) :
    nphotAt oracle inc n (k + 1) i =
      if (oracle k).getD i false then nphotAt oracle inc n k i
      else escalate inc (nphotAt oracle inc n k i) := by
  have h1 : i < (gridAfter oracle inc n (k + 1)).length := by
    rw [gridAfter_length oracle inc n hlen]; exact hi
  have h2 : i < (gridAfter oracle inc n k).length := by
    rw [gridAfter_length oracle inc n hlen]; exact hi
  have h3 : i < (oracle k).length := by rw [hlen k]; exact hi
  have h4 : i < (doPass (oracle k) inc (gridAfter oracle inc n k)).length := h1
  unfold nphotAt
  rw [List.getD_eq_getElem _ _ h1, List.getD_eq_getElem _ _ h2,
    List.getD_eq_getElem _ _ h3]
  have hstep : (gridAfter oracle inc n (k + 1))[i] =
      (fun c (p : PtState) =>
        (⟨if c then p.nphot else escalate inc p.nphot, c⟩ : PtState))
        (oracle k)[i] (gridAfter oracle inc n k)[i] := by
    have hzip : (doPass (oracle k) inc (gridAfter oracle inc n k))[i] =
        (fun c (p : PtState) =>
          (⟨if c then p.nphot else escalate inc p.nphot, c⟩ : PtState))
          (oracle k)[i] (gridAfter oracle inc n k)[i] := by
      simp [doPass]
    exact hzip
  rw [hstep]

/-- Claim C4: for every grid point, at every pass of the run, the ray count
starts at `ininphot = 9` after zero passes, stays between `ininphot` and the
hard cap `max_phot = 10000`, and never decreases from one pass to the next
(it is escalated only for still-unconverged points and is clamped at the
cap) — for any per-pass convergence outcomes and any escalation
increment. -/
theorem nphot_bounds_mono (oracle : ℕ → List Bool) (inc n : ℕ)
    (hlen : ∀ j, (oracle j).length = n) (k i : ℕ) (hi : i < n) :
    nphotAt oracle inc n 0 i = ininphot ∧
    ininphot ≤ nphotAt oracle inc n k i ∧
    nphotAt oracle inc n k i ≤ max_phot ∧
    nphotAt oracle inc n k i ≤ nphotAt oracle inc n (k + 1) i := by
  have hzero : nphotAt oracle inc n 0 i = ininphot := by
    unfold nphotAt
    rw [show gridAfter oracle inc n 0 = initGrid n from rfl]
    unfold initGrid
    rw [List.getD_eq_getElem _ _ (by simpa using hi)]
    simp
  have hcap : ininphot ≤ max_phot := by norm_num [ininphot, max_phot]
  have hbounds : ∀ m, ininphot ≤ nphotAt oracle inc n m i ∧
      nphotAt oracle inc n m i ≤ max_phot := by
    intro m
    induction m with
    | zero => rw [hzero]; exact ⟨le_refl _, hcap⟩
    | succ m ihm =>
        rw [nphotAt_succ oracle inc n hlen m i hi]
        rcases hb : (oracle m).getD i false with _ | _
        · simp only [Bool.false_eq_true, if_false]
          unfold escalate
          constructor
          · exact le_min (le_trans ihm.1 (Nat.le_add_right _ _)) hcap
          · exact min_le_right _ _
        · simpa using ihm
  refine ⟨hzero, (hbounds k).1, (hbounds k).2, ?_⟩
  rw [nphotAt_succ oracle inc n hlen k i hi]
  rcases hb : (oracle k).getD i false with _ | _
  · simp only [Bool.false_eq_true, if_false]
    exact le_min (Nat.le_add_right _ _) (hbounds k).2
  · simp

/-- Concrete instantiation of the C4 theorem: a single point that never
converges, escalated by 5000 rays per pass; after 3 passes its ray count is
still within `[ininphot, max_phot]` and non-decreasing. -/
theorem nphot_bounds_mono_witness :
    nphotAt (fun _ => [false]) 5000 1 0 0 = ininphot ∧
    ininphot ≤ nphotAt (fun _ => [false]) 5000 1 3 0 ∧
    nphotAt (fun _ => [false]) 5000 1 3 0 ≤ max_phot ∧
    nphotAt (fun _ => [false]) 5000 1 3 0 ≤ nphotAt (fun _ => [false]) 5000 1 4 0 :=
  nphot_bounds_mono (fun _ => [false]) 5000 1 (fun _ => rfl) 3 0 (by norm_num)

/-! ## Determinism of the iterating pass (claim C6)

`levelPops` and `photon` (lime.h lines 222 and 230) are not among the
sources; the pass discipline is modelled from the spec (§5): within a pass
every per-point update reads only the previous iteration's populations and
its own deterministic per-point random stream (seeded from the global seed
and the point id), and writes only its own point — so the committed pass
result is independent of the order in which workers process the points, and
two runs with the same seed produce identical populations. -/

/-- Modelled from the spec: one Iterating pass of the engine (`levelPops` /
`photon` bodies missing).  `F seed old i` is the transport + solve update of
point `i`: it depends only on the seed and the *previous* pass's populations
`old`.  The pass commits the updates into a buffer, processing the points in
the worker schedule `order`; unprocessed entries keep their old value. -/
def runPass (F : ℕ → List ℚ → ℕ → ℚ) (seed : ℕ) (old : List ℚ)
    (order : List ℕ) : List ℚ :=
  order.foldl (fun buf i => buf.set i (F seed old i)) old

/-- Modelled from the spec: `k` Iterating passes of the engine, the pass-`j`
worker schedule being `scheds j`. -/
def runIters (F : ℕ → List ℚ → ℕ → ℚ) (seed : ℕ) (scheds : ℕ → List ℕ)
    (pops : List ℚ) : ℕ → List ℚ
  | 0 => pops
  | k + 1 => runPass F seed (runIters F seed scheds pops k) (scheds k)

lemma foldl_set_length (f : ℕ → ℚ) :
    ∀ (order : List ℕ) (buf : List ℚ),
      (order.foldl (fun b i => b.set i (f i)) buf).length = buf.length := by
  intro order
  induction order with
  | nil => intro buf; rfl
  | cons i t ih =>
      intro buf
      simp only [List.foldl_cons]
      rw [ih, List.length_set]

lemma foldl_set_getElem? (f : ℕ → ℚ) :
    ∀ (order : List ℕ) (buf : List ℚ) (j : ℕ),
      (order.foldl (fun b i => b.set i (f i)) buf)[j]? =
        if j ∈ order then (if j < buf.length then some (f j) else none)
        else buf[j]? := by
  intro order
  induction order with
  | nil => intro buf j; simp
  | cons i t ih =>
      intro buf j
      simp only [List.foldl_cons, List.mem_cons]
      rw [ih]
      by_cases hjt : j ∈ t
      · rw [if_pos hjt, if_pos (Or.inr hjt), List.length_set]
      · rw [if_neg hjt]
        by_cases hij : i = j
        · subst hij
          rw [if_pos (Or.inl rfl), List.getElem?_set, if_pos rfl]
        · rw [List.getElem?_set, if_neg hij,
            if_neg (by rintro (rfl | h) <;> [exact hij rfl; exact hjt h])]

/-- A pass whose schedule covers every point index equals the canonical
synchronous update, regardless of the schedule's order (or repetitions). -/
lemma runPass_canonical (F : ℕ → List ℚ → ℕ → ℚ) (seed : ℕ) (old : List ℚ)
    (order : List ℕ) (hcov : ∀ j, j < old.length → j ∈ order) :
    runPass F seed old order = (List.range old.length).map (F seed old) := by
  apply List.ext_getElem?
  intro j
  unfold runPass
  rw [foldl_set_getElem? (F seed old) order old j]
  by_cases hj : j < old.length
  · rw [if_pos (hcov j hj), if_pos hj, List.getElem?_map,
      List.getElem?_range hj]
    rfl
  · have hnone : old[j]? = none := by
      rw [List.getElem?_eq_none]
      omega
    have hnone2 : ((List.range old.length).map (F seed old))[j]? = none := by
      rw [List.getElem?_eq_none]
      simp only [List.length_map, List.length_range]
      omega
    rw [hnone2]
    by_cases hmem : j ∈ order
    · rw [if_pos hmem, if_neg hj]
    · rw [if_neg hmem, hnone]

lemma runPass_length (F : ℕ → List ℚ → ℕ → ℚ) (seed : ℕ) (old : List ℚ)
    (order : List ℕ) : (runPass F seed old order).length = old.length :=
  foldl_set_length (F seed old) order old

lemma runIters_length (F : ℕ → List ℚ → ℕ → ℚ) (seed : ℕ)
    (scheds : ℕ → List ℕ) (pops : List ℚ) (k : ℕ) :
    (runIters F seed scheds pops k).length = pops.length := by
  induction k with
  | zero => rfl
  | succ k ih => rw [runIters, runPass_length, ih]

/-- Claim C6: two runs of the modelled engine on the same input populations
with the same random seed — and any two worker schedules that each cover
every grid point on every pass (in particular, re-running with the identical
schedule) — produce identical populations at every grid point after any
number of passes: the synchronous pass update makes the engine
deterministic under a fixed seed, independently of scheduling order. -/
theorem runIters_deterministic (F : ℕ → List ℚ → ℕ → ℚ) (seed : ℕ)
    (scheds1 scheds2 : ℕ → List ℕ) (pops : List ℚ) (k : ℕ)
    (h1 : ∀ j i, i < pops.length → i ∈ scheds1 j)
    (h2 : ∀ j i, i < pops.length → i ∈ scheds2 j) :
    runIters F seed scheds1 pops k = runIters F seed scheds2 pops k := by
  induction k with
  | zero => rfl
  | succ k ih =>
      rw [runIters, runIters, ih]
      rw [runPass_canonical F seed _ (scheds1 k) (fun j hj => h1 k j (by
        rwa [runIters_length] at hj))]
      rw [runPass_canonical F seed _ (scheds2 k) (fun j hj => h2 k j (by
        rwa [runIters_length] at hj))]

/-- Concrete instantiation of the C6 theorem: a two-point grid iterated for
three passes under the schedule `[0, 1]` and the reversed schedule `[1, 0]`
yields identical populations. -/
theorem runIters_deterministic_witness :
    runIters (fun s old i => old.getD i 0 + s) 7 (fun _ => [0, 1])
        [1, 2] 3 =
      runIters (fun s old i => old.getD i 0 + s) 7 (fun _ => [1, 0])
        [1, 2] 3 :=
  runIters_deterministic (fun s old i => old.getD i 0 + s) 7
    (fun _ => [0, 1]) (fun _ => [1, 0]) [1, 2] 3
    (by intro j i hi
        have h2 : i < 2 := by simpa using hi
        interval_cases i <;> simp)
    (by intro j i hi
        have h2 : i < 2 := by simpa using hi
        interval_cases i <;> simp)

/-! ## Source-function evaluation near zero optical depth (claim C7)

`calcSourceFn` is declared at lime.h line 198; its body is missing from the
sources, so it is modelled from the spec (§4.2 numeric care): the
optical-depth factor `(1 - exp(-dTau))/dTau` is replaced, below the
configured cutoff `inputPars.taylorCutoff` (lime.h line 89), by its Taylor
polynomial, which involves no division by `dTau`. -/

/-- The cubic Taylor polynomial of `exp (-t)` at 0:
`1 - t + t²/2 - t³/6`. -/
def expMinusTaylor3 (t : ℚ) : ℚ := 1 - t + t ^ 2 / 2 - t ^ 3 / 6

/-- Modelled from the spec: `calcSourceFn` (declared lime.h line 198, body
missing).  `dTau` is the optical depth of the segment, `expDTau` the
already-computed value of `exp (-dTau)`, and `taylorCutoff` the configured
cutoff of `inputPars` (lime.h line 89).  Below the cutoff the factor
`(1 - exp(-dTau))/dTau` is evaluated by its quadratic Taylor approximation
`1 - (dTau/2)(1 - dTau/3)`; at or above the cutoff the direct expression is
used. -/
def calcSourceFn (dTau expDTau taylorCutoff : ℚ) : ℚ :=
  if |dTau| < taylorCutoff then 1 - dTau * (1 - dTau * (1 / 3)) * (1 / 2)
  else (1 - expDTau) / dTau

/-- Claim C7: below the configured cutoff, `calcSourceFn` evaluates the
optical-depth factor by the Taylor polynomial `1 - (dTau/2)(1 - dTau/3)` —
a polynomial in `dTau`, so no division by the near-zero optical depth
occurs, and it is exactly the direct expression with `exp (-dTau)` replaced
by its cubic Taylor truncation; in particular at `dTau = 0` (where the
direct expression is undefined) its value is the analytic limit 1.  At or
above the cutoff the direct expression `(1 - exp(-dTau))/dTau` is used. -/
theorem calcSourceFn_branches (dTau expDTau cutoff : ℚ) :
    (|dTau| < cutoff →
      calcSourceFn dTau expDTau cutoff
          = 1 - dTau * (1 - dTau * (1 / 3)) * (1 / 2) ∧
      (dTau ≠ 0 →
        calcSourceFn dTau expDTau cutoff
          = (1 - expMinusTaylor3 dTau) / dTau) ∧
      (dTau = 0 → calcSourceFn dTau expDTau cutoff = 1)) ∧
    (cutoff ≤ |dTau| →
      calcSourceFn dTau expDTau cutoff = (1 - expDTau) / dTau) := by
  constructor
  · intro hlt
    have hbr : calcSourceFn dTau expDTau cutoff
        = 1 - dTau * (1 - dTau * (1 / 3)) * (1 / 2) := by
      unfold calcSourceFn
      rw [if_pos hlt]
    refine ⟨hbr, ?_, ?_⟩
    · intro hne
      rw [hbr]
      unfold expMinusTaylor3
      field_simp
      ring
    · intro h0
      rw [hbr, h0]
      ring
  · intro hge
    unfold calcSourceFn
    rw [if_neg (not_lt.mpr hge)]

/-- Concrete instantiation of the C7 theorem at `dTau = 1/100` with cutoff
`1/10`: the Taylor branch is taken. -/
theorem calcSourceFn_branches_witness :
    ((|1 / 100| : ℚ) < 1 / 10 →
      calcSourceFn (1 / 100) (1 / 2) (1 / 10)
          = 1 - (1 / 100) * (1 - (1 / 100) * (1 / 3)) * (1 / 2) ∧
      ((1 / 100 : ℚ) ≠ 0 →
        calcSourceFn (1 / 100) (1 / 2) (1 / 10)
          = (1 - expMinusTaylor3 (1 / 100)) / (1 / 100)) ∧
      ((1 / 100 : ℚ) = 0 → calcSourceFn (1 / 100) (1 / 2) (1 / 10) = 1)) ∧
    ((1 / 10 : ℚ) ≤ |1 / 100| →
      calcSourceFn (1 / 100) (1 / 2) (1 / 10) = (1 - 1 / 2) / (1 / 100)) :=
  calcSourceFn_branches (1 / 100) (1 / 2) (1 / 10)

/-! ## Configuration validation (claim C8)

`parseInput` is declared at lime.h line 229; its body is missing from the
sources.  The compile-time bound `MAX_NSPECIES = 100` (lime.h line 80) is
the capacity limit on the number of tracked species declared in
`inputPars.nSpecies` (lime.h line 90); the spec (§7) has configurations
with an invalid species count rejected before the run starts as a
`ConfigurationError`. -/

/-- Errors raised before the run starts (spec §7 taxonomy). -/
inductive ConfigError where
  | ConfigurationError : ConfigError

/-- Modelled from the spec: the pre-run validation of the species count in
`parseInput` (declared lime.h line 229, body missing): a configuration
declaring a negative number of species, or more species than the
compile-time capacity `MAX_NSPECIES`, is rejected. -/
def checkNSpecies (nSpecies : ℤ) : Option ConfigError :=
  if nSpecies < 0 ∨ MAX_NSPECIES < nSpecies then
    some ConfigError.ConfigurationError
  else none

/-- Modelled from the spec: starting a run first validates the
configuration; an invalid species count is rejected before any iteration
happens. -/
def startRun (nSpecies : ℤ) : Except ConfigError Unit :=
  match checkNSpecies nSpecies with
  | some e => Except.error e
  | none => Except.ok ()

/-- Claim C8: the tracked-species capacity is the compile-time constant
`MAX_NSPECIES = 100`, and any configuration declaring more species than
this bound is rejected with a `ConfigurationError` before the run starts;
a species count within the bound passes the validation. -/
theorem nSpecies_bound (nSpecies : ℤ) :
    MAX_NSPECIES = 100 ∧
    (MAX_NSPECIES < nSpecies →
      startRun nSpecies = Except.error ConfigError.ConfigurationError) ∧
    (0 ≤ nSpecies → nSpecies ≤ MAX_NSPECIES → startRun nSpecies = Except.ok ()) := by
  refine ⟨rfl, ?_, ?_⟩
  · intro hgt
    unfold startRun checkNSpecies
    rw [if_pos (Or.inr hgt)]
  · intro h0 hle
    unfold startRun checkNSpecies
    rw [if_neg (by push_neg; exact ⟨h0, hle⟩)]

/-- Concrete instantiation of the C8 theorem at `nSpecies = 101`: the run is
rejected before it starts. -/
theorem nSpecies_bound_witness :
    MAX_NSPECIES = 100 ∧
    (MAX_NSPECIES < 101 →
      startRun 101 = Except.error ConfigError.ConfigurationError) ∧
    (0 ≤ (101 : ℤ) → (101 : ℤ) ≤ MAX_NSPECIES → startRun 101 = Except.ok ()) :=
  nSpecies_bound 101

/-! ## Spatial dimension (claim C9)

Translated from lime.h: `DIM` is the compile-time constant 3 (line 42);
`point` holds two length-3 coordinate arrays `x[3]`, `xn[3]` (lines
118-121); `struct grid` holds the position `x[3]` and velocity `vel[3]`
(lines 137-138) and per-neighbor direction vectors `point *dir`
(line 141). -/

/-- The C `point` type (lime.h lines 118-121): a direction record holding
the fixed-size coordinate arrays `x[3]` and `xn[3]`; the length-3 shape of
the C arrays is carried as structure invariants. -/
structure PointCoord where
  x : List ℚ
  xn : List ℚ
  hx : x.length = DIM
  hxn : xn.length = DIM

/-- The geometric part of the C `struct grid` (lime.h lines 135-150): grid
point id, position `x[3]`, velocity `vel[3]`, and the per-neighbor
direction vectors `dir`.  The length-3 shapes of the fixed C arrays are
carried as structure invariants. -/
structure GridPoint where
  id : ℤ
  x : List ℚ
  vel : List ℚ
  dir : List PointCoord
  sink : Bool
  hx : x.length = DIM
  hvel : vel.length = DIM

/-- Claim C9: the spatial dimension is the compile-time constant `DIM = 3`
(not a runtime parameter — `DIM` takes no input), and every grid point's
position and velocity, and every per-neighbor direction record, is a
length-3 vector; the shape invariants are part of the grid data type, so
every operation producing a `GridPoint` preserves them. -/
theorem grid_dimension_three (g : GridPoint) :
    DIM = 3 ∧ g.x.length = 3 ∧ g.vel.length = 3 ∧
      ∀ d ∈ g.dir, d.x.length = 3 ∧ d.xn.length = 3 := by
  refine ⟨rfl, g.hx, g.hvel, fun d _ => ⟨d.hx, d.hxn⟩⟩

/-- Concrete instantiation of the C9 theorem on a concrete grid point at the
origin with no neighbors. -/
theorem grid_dimension_three_witness :
    DIM = 3 ∧ ([0, 0, 0] : List ℚ).length = 3 ∧
      ([0, 0, 0] : List ℚ).length = 3 ∧
      ∀ d ∈ ([] : List PointCoord), d.x.length = 3 ∧ d.xn.length = 3 :=
  grid_dimension_three ⟨0, [0, 0, 0], [0, 0, 0], [], false, rfl, rfl⟩

/-! ## Default worker count (claim C10) -/

/-- Modelled from the spec: the assignment of grid point `i` to a worker
thread in the parallel-for of an Iterating pass (`levelPops` body missing);
with `NTHREADS` workers, point `i` is handled by worker `i % NTHREADS`. -/
def workerOf (i : ℕ) : ℕ := i % NTHREADS

/-- Claim C10: when no thread count is supplied at build time the engine
defaults to exactly one worker (`NTHREADS = DEFAULT_NTHREADS = 1`), the
OpenMP shim used when compiled without OpenMP reports thread id 0 for
every query, and consequently every grid point of an Iterating pass is
processed by the single worker 0 — the pass is serial. -/
theorem default_single_worker (i : ℕ) :
    NTHREADS = 1 ∧ DEFAULT_NTHREADS = 1 ∧ omp_get_thread_num = 0 ∧
      workerOf i = 0 := by
  refine ⟨rfl, rfl, rfl, ?_⟩
  unfold workerOf NTHREADS DEFAULT_NTHREADS
  exact Nat.mod_one i

/-- Concrete instantiation of the C10 theorem at grid point 5: it is
processed by worker 0. -/
theorem default_single_worker_witness :
    NTHREADS = 1 ∧ DEFAULT_NTHREADS = 1 ∧ omp_get_thread_num = 0 ∧
      workerOf 5 = 0 :=
  default_single_worker 5

end Lime
